import Mathlib

/-!
Shallow embedding of the voice-gate kiosk front-end (dlswn422/voice-gate-poc).

Audio sample buffers are modelled as lists of rationals (exact arithmetic in
place of IEEE Float32/Float64), byte buffers as lists of naturals below 256,
and the JavaScript number operations Math.round and the ToInt16 truncation of
DataView.setInt16 as explicit functions on the rationals.

The client-side audio-session state machine of useVoiceWs.ts is embedded as a
state record plus one step function per browser event (socket open, socket
message, worklet frame, animation-frame tick, playback ended, errors), each
translated from the corresponding handler in the source.
-/

namespace VoiceGate

/-- JavaScript Math.round on a nonnegative value: floor of q + 1/2
(Math.round rounds half toward positive infinity). -/
def jsRound (q : ℚ) : ℤ := ⌊q + 1/2⌋

/-- Math.round result used as an array length / index (nonnegative inputs). -/
def jsRoundNat (q : ℚ) : ℕ := (jsRound q).toNat

/-- Truncation toward zero, as the ECMAScript ToInt16 conversion applies to a
Number before taking it modulo 2^16. -/
def jsTrunc (q : ℚ) : ℤ := if q < 0 then ⌈q⌉ else ⌊q⌋

/-- Average over one downsampling window: the inner for-loop
`for (i = lo; i < hi && i < input.length; i++) sum += input[i], count++`
followed by `count > 0 ? sum / count : 0`, shared verbatim by
downsampleBuffer (page.tsx) and PCM16Processor.downsampleTo16k (worklet). -/
def winAvg (input : List ℚ) (lo hi : ℕ) : ℚ :=
  let w := (input.drop lo).take (hi - lo)
  if w.length = 0 then 0 else w.sum / (w.length : ℚ)

/-- The while-loop of page.tsx downsampleBuffer. `fuel` counts the remaining
iterations (`result.length - offsetResult`); `offsetResult` and `offsetInput`
are the loop variables carried across iterations; `rt` is `inRate / outRate`
(the variable named r-a-t-i-o in the source). -/
def dsLoopPage (input : List ℚ) (rt : ℚ) : ℕ → ℕ → ℕ → List ℚ
  | 0, _, _ => []
  | fuel+1, offsetResult, offsetInput =>
    let nextOffsetInput := jsRoundNat (((offsetResult : ℚ) + 1) * rt)
    winAvg input offsetInput nextOffsetInput
      :: dsLoopPage input rt (fuel) (offsetResult + 1) nextOffsetInput

/-- page.tsx downsampleBuffer: identity when rates agree, an Error when
`outRate > inRate`, else the averaging downsample loop. -/
def downsampleBuffer (input : List ℚ) (inRate outRate : ℕ) :
    Except String (List ℚ) :=
  if outRate = inRate then .ok input
  else if inRate < outRate then .error "outRate must be <= inRate"
  else
    let rt : ℚ := (inRate : ℚ) / (outRate : ℚ)
    let newLen : ℕ := jsRoundNat ((input.length : ℚ) / rt)
    .ok (dsLoopPage input rt newLen 0 0)

/-- PCM16Processor.targetRate, fixed in the worklet constructor. -/
def targetRate : ℕ := 16000

/-- The while-loop of PCM16Processor.downsampleTo16k (the worklet's loop
variables are offsetResult and offsetBuffer). -/
def dsLoopWorklet (input : List ℚ) (rt : ℚ) : ℕ → ℕ → ℕ → List ℚ
  | 0, _, _ => []
  | fuel+1, offsetResult, offsetBuffer =>
    let nextOffsetBuffer := jsRoundNat (((offsetResult : ℚ) + 1) * rt)
    winAvg input offsetBuffer nextOffsetBuffer
      :: dsLoopWorklet input rt (fuel) (offsetResult + 1) nextOffsetBuffer

/-- PCM16Processor.downsampleTo16k: identity when `inputRate` is already the
target rate, else the averaging downsample loop. It has no guard against
`inputRate` below the target rate. -/
def downsampleTo16k (input : List ℚ) (inputRate : ℕ) : List ℚ :=
  if inputRate = targetRate then input
  else
    let rt : ℚ := (inputRate : ℚ) / (targetRate : ℚ)
    let newLength : ℕ := jsRoundNat ((input.length : ℚ) / rt)
    dsLoopWorklet input rt newLength 0 0

/-- PCM16Processor.floatToPCM16 / page.tsx floatTo16BitPCM, per sample:
clamp to [-1, 1], scale by 0x8000 (negative) or 0x7fff (non-negative), then
the ToInt16 truncation performed by DataView.setInt16. -/
def pcm16Val (x : ℚ) : ℤ :=
  let s := max (-1 : ℚ) (min 1 x)
  if s < 0 then jsTrunc (s * 0x8000) else jsTrunc (s * 0x7fff)

/-- The two bytes DataView.setInt16(2*i, v, true) writes: the 16-bit two's
complement pattern of `pcm16Val x`, low byte first (little-endian). -/
def pcm16Bytes (x : ℚ) : List ℕ :=
  let u := (pcm16Val x % 65536).toNat
  [u % 256, u / 256]

/-- PCM16Processor.floatToPCM16: the for-loop writing each sample's two bytes
at byte offset 2*i of a fresh ArrayBuffer of 2*length bytes. -/
def floatToPCM16 : List ℚ → List ℕ
  | [] => []
  | x :: xs => pcm16Bytes x ++ floatToPCM16 xs

/-- page.tsx floatTo16BitPCM, the verbatim duplicate of floatToPCM16. -/
def floatTo16BitPCM : List ℚ → List ℕ
  | [] => []
  | x :: xs => pcm16Bytes x ++ floatTo16BitPCM xs

/-! ### Expression labels and the hysteresis labeler (page.tsx) -/

/-- The ExprLabel union type of page.tsx. -/
inductive ExprLabel
  | neutral
  | positive
  | frustrated
  | angry
  | confused
deriving DecidableEq, Repr

/-- The private fields of class HysteresisLabeler. -/
structure HLState where
  current : ExprLabel
  candidate : ExprLabel
  hits : ℕ
  hold : ℕ
deriving DecidableEq, Repr

/-- HysteresisLabeler's constructor: current and candidate start at neutral,
hits at 0, hold at the given holdFrames. -/
def HLState.init (holdFrames : ℕ) : HLState :=
  { current := .neutral, candidate := .neutral, hits := 0, hold := holdFrames }

/-- HysteresisLabeler.step: returns the updated fields and the returned
stable label. -/
def HLState.step (st : HLState) (next : ExprLabel) : HLState × ExprLabel :=
  if next = st.current then
    let st' := { st with candidate := next, hits := 0 }
    (st', st'.current)
  else
    let st1 :=
      if next = st.candidate then { st with hits := st.hits + 1 }
      else { st with candidate := next, hits := 1 }
    let st2 :=
      if st1.hold ≤ st1.hits then { st1 with current := st1.candidate, hits := 0 }
      else st1
    (st2, st2.current)

/-- Feeding a sequence of labels to step, collecting the returned labels. -/
def HLState.runList (st : HLState) : List ExprLabel → List ExprLabel
  | [] => []
  | x :: xs =>
    let p := st.step x
    p.2 :: p.1.runList xs

/-- The labeler state after consuming a list of labels. -/
def HLState.stateAfter (st : HLState) (l : List ExprLabel) : HLState :=
  l.foldl (fun s x => (s.step x).1) st

/-! ### The useVoiceWs hook (useVoiceWs.ts) as an event-step state machine.

React state, refs and the monitor's closure variable `hit` form the state
record; each browser/socket callback of the hook becomes a step function.
Booleans stand for "this ref currently holds a live object". -/

/-- The WsStatus union type of useVoiceWs.ts. -/
inductive WsStatus
  | off
  | connecting
  | running
deriving DecidableEq, Repr

/-- Messages the hook sends over the WebSocket: the start handshake, the stop
control message, the barge_in control message, and binary microphone frames. -/
inductive OutMsg
  | startMsg (sampleRate : ℕ) (format : String)
  | stopMsg
  | bargeInMsg
  | audioFrame (data : List ℕ)
deriving DecidableEq, Repr

/-- The ServerMsg union type of useVoiceWs.ts; unknownMsg stands for a text
frame that fails JSON.parse or whose type tag matches no branch. The pid of
stopPlayback is an Option: none models a missing or non-number playback_id. -/
inductive ServerMsg
  | partMsg (text : Option String)
  | finalMsg (text : Option String)
  | botTextMsg (text : Option String)
  | stopPlaybackMsg (pid : Option ℕ)
  | errorMsg (message : Option String)
  | unknownMsg
deriving DecidableEq, Repr

/-- The state of one useVoiceWs hook instance: React state (status and the
three transcript strings), the refs, and the barge-in monitor's counter.
`wsOpen` models `wsRef's readyState === WebSocket.OPEN`; `playingAudio`
models "playingAudioRef holds an element that is not paused"; `sent` records
every message given to ws.send, in order. -/
structure HookState where
  status : WsStatus := .off
  partText : String := ""
  finalText : String := ""
  botText : String := ""
  wsRef : Bool := false
  wsOpen : Bool := false
  audioCtx : Bool := false
  workletNode : Bool := false
  sourceNode : Bool := false
  mediaStream : Bool := false
  analyserNode : Bool := false
  rafId : Bool := false
  captureMuted : Bool := false
  playingAudio : Bool := false
  playingUrl : Bool := false
  bufferSource : Bool := false
  currentPid : ℕ := 0
  hit : ℕ := 0
  sent : List OutMsg := []
deriving DecidableEq, Repr

/-- The stopPlayback callback: stop and null the WebAudio buffer source,
pause and null the HTMLAudio element, revoke and null the object URL. -/
def stopPlaybackFn (s : HookState) : HookState :=
  { s with bufferSource := false, playingAudio := false, playingUrl := false }

/-- The cleanupAudioCapture callback: cancel the animation frame, disconnect
and null the analyser, worklet node, source, AudioContext and media stream. -/
def cleanupAudioCaptureFn (s : HookState) : HookState :=
  { s with rafId := false, analyserNode := false, audioCtx := false,
           workletNode := false, sourceNode := false, mediaStream := false }

/-- The stop callback: stop playback, clear the capture mute, tear down audio
capture, send stop if the socket is open, close the socket, null wsRef, set
status OFF and clear the live transcript. -/
def stopFn (s : HookState) : HookState :=
  let s1 := stopPlaybackFn s
  let s2 := { s1 with captureMuted := false }
  let s3 := cleanupAudioCaptureFn s2
  let s4 :=
    if s3.wsRef ∧ s3.wsOpen then { s3 with sent := s3.sent ++ [OutMsg.stopMsg] }
    else s3
  let s5 := if s4.wsRef then { s4 with wsOpen := false } else s4
  { s5 with wsRef := false, status := .off, partText := "" }

/-- The start callback: an early return while status is not OFF; otherwise
reset the UI state and the playback generation, then construct the WebSocket
(ctorOk false models the constructor throwing: log, status OFF, return). -/
def startCallStep (ctorOk : Bool) (s : HookState) : HookState :=
  if s.status ≠ .off then s
  else
    let s1 := { s with status := .connecting, partText := "", finalText := "",
                       botText := "", currentPid := 0 }
    if ctorOk then { s1 with wsRef := true } else { s1 with status := .off }

/-- ws.onopen: send the start handshake, then set up microphone capture
(stream, AudioContext, analyser, barge-in monitor with hit = 0, worklet) and
set status RUNNING. captureOk false models a failure inside the try (for
example getUserMedia rejecting): the catch logs and awaits stop(). -/
def wsOpenedStep (captureOk : Bool) (s : HookState) : HookState :=
  let s1 := { s with wsOpen := true,
                     sent := s.sent ++ [OutMsg.startMsg 16000 "pcm16"] }
  if captureOk then
    { s1 with mediaStream := true, audioCtx := true, analyserNode := true,
              rafId := true, hit := 0, workletNode := true, sourceNode := true,
              status := .running }
  else stopFn s1

/-- node.port.onmessage: drop the frame while capture is muted, otherwise
send it when the socket is open. -/
def micFrameStep (data : List ℕ) (s : HookState) : HookState :=
  if s.captureMuted then s
  else if s.wsOpen then { s with sent := s.sent ++ [OutMsg.audioFrame data] }
  else s

/-- The JSON-text half of ws.onmessage. -/
def serverTextStep (m : ServerMsg) (s : HookState) : HookState :=
  match m with
  | .stopPlaybackMsg pid =>
    let s1 :=
      match pid with
      | some p => { s with currentPid := p }
      | none => { s with currentPid := s.currentPid + 1 }
    stopPlaybackFn s1
  | .partMsg t =>
    let s1 := stopPlaybackFn s
    { s1 with captureMuted := false, partText := t.getD "" }
  | .finalMsg t => { s with finalText := t.getD "", partText := "" }
  | .botTextMsg t => { s with botText := t.getD "" }
  | .errorMsg _ => stopFn s
  | .unknownMsg => s

/-- The magic check of the binary branch: the first four bytes spell WAV0. -/
def wav0Magic (bytes : List ℕ) : Bool :=
  bytes.getD 0 0 == 87 && bytes.getD 1 0 == 65 &&
  bytes.getD 2 0 == 86 && bytes.getD 3 0 == 48

/-- dv.getUint32(4, true): the little-endian uint32 at byte offset 4. -/
def wav0Pid (bytes : List ℕ) : ℕ :=
  bytes.getD 4 0 + 256 * bytes.getD 5 0 +
  65536 * bytes.getD 6 0 + 16777216 * bytes.getD 7 0

/-- Playing the wav payload: the WebAudio path when an AudioContext is live
and decodeAudioData succeeds, else the HTMLAudio fallback (object URL plus
Audio element). -/
def playWav (decodeOk : Bool) (s : HookState) : HookState :=
  if s.audioCtx ∧ decodeOk then { s with bufferSource := true }
  else { s with playingUrl := true, playingAudio := true }

/-- The binary half of ws.onmessage: frames of at least 8 bytes carrying the
WAV0 magic are dropped outright when their pid differs from currentPid, else
played after stopping the previous playback and muting capture; all other
frames take the headerless fallback, also stopping playback and muting. -/
def serverBinaryStep (bytes : List ℕ) (decodeOk : Bool) (s : HookState) :
    HookState :=
  if 8 ≤ bytes.length ∧ wav0Magic bytes then
    if wav0Pid bytes ≠ s.currentPid then s
    else playWav decodeOk { stopPlaybackFn s with captureMuted := true }
  else playWav decodeOk { stopPlaybackFn s with captureMuted := true }

/-- One animation-frame tick of the barge-in monitor. `micBuf` is the
analyser's time-domain data; the source compares sqrt(sum/len) against the
0.03 threshold, which for the nonnegative mean square equals comparing
sum/len against 0.03^2 = 9/10000. isTtsPlaying reads only playingAudioRef
(the HTMLAudio element), exactly as the source does. -/
def tickStep (micBuf : List ℚ) (s : HookState) : HookState :=
  let ms : ℚ := (micBuf.map (fun v => v * v)).sum / (micBuf.length : ℚ)
  if s.playingAudio ∧ s.captureMuted then
    let hit1 := if 9/10000 < ms then s.hit + 1 else 0
    if 3 ≤ hit1 then
      let s1 := stopPlaybackFn { s with hit := 0 }
      let s2 := { s1 with captureMuted := false }
      if s2.wsOpen then { s2 with sent := s2.sent ++ [OutMsg.bargeInMsg] }
      else s2
    else { s with hit := hit1 }
  else { s with hit := 0 }

/-- src.onended of a WebAudio buffer source: unmute capture, and null the
ref when the ending source is still the current one. -/
def webAudioEndedStep (isCurrent : Bool) (s : HookState) : HookState :=
  let s1 := { s with captureMuted := false }
  if isCurrent then { s1 with bufferSource := false } else s1

/-- audio.onended of an HTMLAudio element: unmute capture, and revoke the
URL and null the refs when the ending element is still the current one. -/
def htmlAudioEndedStep (isCurrent : Bool) (s : HookState) : HookState :=
  let s1 := { s with captureMuted := false }
  if isCurrent then { s1 with playingAudio := false, playingUrl := false }
  else s1

/-- The browser events the hook reacts to. -/
inductive Event
  | startCall (ctorOk : Bool)
  | wsOpened (captureOk : Bool)
  | micFrame (data : List ℕ)
  | serverText (m : ServerMsg)
  | serverBinary (bytes : List ℕ) (decodeOk : Bool)
  | tick (micBuf : List ℚ)
  | webAudioEnded (isCurrent : Bool)
  | htmlAudioEnded (isCurrent : Bool)
  | wsError
  | wsClosed
  | stopCall
deriving DecidableEq, Repr

/-- One event step. ws.onerror invokes stop(); ws.onclose only sets status
OFF (and the socket itself is no longer open); stop() is the stop callback. -/
def stepEvent (e : Event) (s : HookState) : HookState :=
  match e with
  | .startCall ok => startCallStep ok s
  | .wsOpened ok => wsOpenedStep ok s
  | .micFrame d => micFrameStep d s
  | .serverText m => serverTextStep m s
  | .serverBinary b ok => serverBinaryStep b ok s
  | .tick buf => tickStep buf s
  | .webAudioEnded c => webAudioEndedStep c s
  | .htmlAudioEnded c => htmlAudioEndedStep c s
  | .wsError => stopFn s
  | .wsClosed => { s with status := .off, wsOpen := false }
  | .stopCall => stopFn s

/-- The hook's initial state: status OFF, empty transcripts, all refs null. -/
def initState : HookState := {}

/-- Running a list of events from a given state. -/
def runFrom (s : HookState) (es : List Event) : HookState :=
  es.foldl (fun t e => stepEvent e t) s

/-- Running a list of events from the initial state. -/
def runEvents (es : List Event) : HookState :=
  runFrom initState es

/-! ### C1: playback-generation tracking -/

/-- C1. On a stopPlayback JSON message the hook sets currentPid to the
message's playback_id when that field is a number (otherwise increments it)
and halts any in-progress playback (WebAudio source, HTMLAudio element and
object URL all cleared); and every binary frame of at least 8 bytes carrying
the WAV0 magic whose little-endian uint32 pid at offset 4 differs from the
stored currentPid is dropped without any state change, in particular without
being played. -/
theorem C1_playback_generation (s : HookState) (pid : Option ℕ)
    (bytes : List ℕ) (decodeOk : Bool) :
    stepEvent (.serverText (.stopPlaybackMsg pid)) s =
      { s with currentPid := (match pid with
                              | some p => p
                              | none => s.currentPid + 1),
               bufferSource := false, playingAudio := false,
               playingUrl := false } ∧
    (8 ≤ bytes.length → wav0Magic bytes = true → wav0Pid bytes ≠ s.currentPid →
      stepEvent (.serverBinary bytes decodeOk) s = s) := by
  constructor
  · cases pid <;> rfl
  · intro h1 h2 h3
    simp [stepEvent, serverBinaryStep, h1, h2, h3]

/-- Witness for C1 at a concrete state and frame: the magic matches, pid 5
differs from currentPid 0, and the frame is dropped. -/
theorem C1_witness :
    stepEvent (.serverBinary [87, 65, 86, 48, 5, 0, 0, 0, 1, 2] true) initState
      = initState :=
  (C1_playback_generation initState none [87, 65, 86, 48, 5, 0, 0, 0, 1, 2]
    true).2 (by decide) (by decide) (by decide)

/-! ### C8: uniform teardown on failure -/

/-- C8. A socket error, a server error message, a stop() call, and a failure
while setting up microphone capture all run the same stop routine, and the
state stop produces has status OFF, an empty live transcript, and null
WebSocket, AudioContext, worklet node, media source and media stream refs. -/
theorem C8_uniform_teardown (s : HookState) (m : Option String) :
    stepEvent .wsError s = stopFn s ∧
    stepEvent (.serverText (.errorMsg m)) s = stopFn s ∧
    stepEvent .stopCall s = stopFn s ∧
    stepEvent (.wsOpened false) s =
      stopFn { s with wsOpen := true,
                      sent := s.sent ++ [OutMsg.startMsg 16000 "pcm16"] } ∧
    (stopFn s).status = .off ∧ (stopFn s).partText = "" ∧
    (stopFn s).wsRef = false ∧ (stopFn s).audioCtx = false ∧
    (stopFn s).workletNode = false ∧ (stopFn s).sourceNode = false ∧
    (stopFn s).mediaStream = false := by
  refine ⟨rfl, rfl, rfl, rfl, ?_, ?_, ?_, ?_, ?_, ?_, ?_⟩ <;>
    simp only [stopFn, cleanupAudioCaptureFn, stopPlaybackFn] <;>
    split_ifs <;> rfl

/-! ### C9: start is guarded against re-entry -/

/-- C9. Calling start() while status is not OFF changes nothing: no socket is
created and every state field, including the playback generation and all
media refs, is untouched. -/
theorem C9_start_reentry_guard (s : HookState) (ok : Bool)
    (h : s.status ≠ .off) :
    stepEvent (.startCall ok) s = s := by
  simp [stepEvent, startCallStep, h]

/-- Witness for C9 at a running state. -/
theorem C9_witness :
    stepEvent (.startCall true) ({ status := .running } : HookState)
      = ({ status := .running } : HookState) :=
  C9_start_reentry_guard { status := .running } true (by decide)

/-! ### C4: PCM16 encoding -/

theorem pcm16Val_range (x : ℚ) : -32768 ≤ pcm16Val x ∧ pcm16Val x ≤ 32767 := by
  have h1 : (-1 : ℚ) ≤ max (-1 : ℚ) (min 1 x) := le_max_left _ _
  have h2 : max (-1 : ℚ) (min 1 x) ≤ 1 := max_le (by norm_num) (min_le_left _ _)
  simp only [pcm16Val, jsTrunc]
  split_ifs with hneg hq hq
  · constructor
    · have hle : (-32768 : ℚ) ≤ max (-1 : ℚ) (min 1 x) * 0x8000 := by nlinarith
      have := Int.ceil_le_ceil hle
      simpa using this
    · have := Int.ceil_le_ceil hq.le
      simp only [Int.ceil_zero] at this
      omega
  · exfalso; nlinarith
  · exfalso; nlinarith
  · push_neg at hneg hq
    constructor
    · have := Int.floor_le_floor hq
      simp only [Int.floor_zero] at this
      omega
    · have hle : max (-1 : ℚ) (min 1 x) * 0x7fff ≤ 32767 := by nlinarith
      have := Int.floor_le_floor hle
      simpa using this

theorem floatToPCM16_length (l : List ℚ) :
    (floatToPCM16 l).length = 2 * l.length := by
  induction l with
  | nil => rfl
  | cons x xs ih =>
    simp only [floatToPCM16, pcm16Bytes, List.length_append, List.length_cons,
      List.length_nil, ih]
    omega

theorem floatTo16BitPCM_eq_floatToPCM16 (l : List ℚ) :
    floatTo16BitPCM l = floatToPCM16 l := by
  induction l with
  | nil => rfl
  | cons x xs ih => simp only [floatTo16BitPCM, floatToPCM16, ih]

theorem floatToPCM16_getD (l : List ℚ) (i : ℕ) (hi : i < l.length) :
    (floatToPCM16 l).getD (2 * i) 0 = (pcm16Val (l.getD i 0) % 65536).toNat % 256 ∧
    (floatToPCM16 l).getD (2 * i + 1) 0 = (pcm16Val (l.getD i 0) % 65536).toNat / 256 := by
  induction l generalizing i with
  | nil => simp at hi
  | cons x xs ih =>
    cases i with
    | zero => simp [floatToPCM16, pcm16Bytes]
    | succ j =>
      have hj : j < xs.length := by simpa using hi
      have e1 : 2 * (j + 1) = 2 * j + 1 + 1 := by omega
      rw [e1]
      simp only [floatToPCM16, pcm16Bytes, List.cons_append, List.nil_append,
        List.getD_cons_succ, List.getD_cons_zero]
      exact ih j hj

/-- C4. floatToPCM16 (and its page-level duplicate floatTo16BitPCM) produces
2*n bytes; the 16-bit little-endian signed value decoded from the two bytes
at offset 2*i equals the sample clamped to [-1,1], scaled by 0x8000 when
negative and 0x7fff otherwise (then truncated toward zero as ToInt16 does);
every encoded value lies in [-32768, 32767]. -/
theorem C4_pcm16_encoding (input : List ℚ) :
    (floatToPCM16 input).length = 2 * input.length ∧
    floatTo16BitPCM input = floatToPCM16 input ∧
    (∀ i, i < input.length →
      (let s := max (-1 : ℚ) (min 1 (input.getD i 0))
       let v : ℤ := if s < 0 then jsTrunc (s * 0x8000) else jsTrunc (s * 0x7fff)
       let u : ℕ := (floatToPCM16 input).getD (2 * i) 0 +
                    256 * ((floatToPCM16 input).getD (2 * i + 1) 0)
       ((if u < 32768 then (u : ℤ) else (u : ℤ) - 65536) = v ∧
        -32768 ≤ v ∧ v ≤ 32767))) := by
  refine ⟨floatToPCM16_length input, floatTo16BitPCM_eq_floatToPCM16 input, ?_⟩
  intro i hi
  have hv : (if max (-1 : ℚ) (min 1 (input.getD i 0)) < 0
             then jsTrunc (max (-1 : ℚ) (min 1 (input.getD i 0)) * 0x8000)
             else jsTrunc (max (-1 : ℚ) (min 1 (input.getD i 0)) * 0x7fff))
            = pcm16Val (input.getD i 0) := rfl
  simp only [hv]
  obtain ⟨hlo, hhi⟩ := pcm16Val_range (input.getD i 0)
  obtain ⟨hb0, hb1⟩ := floatToPCM16_getD input i hi
  rw [hb0, hb1]
  refine ⟨?_, hlo, hhi⟩
  split_ifs <;> omega

/-- Witness for C4 at the one-sample buffer containing one half. -/
theorem C4_witness :
    (let s := max (-1 : ℚ) (min 1 (([(1 : ℚ)/2] : List ℚ).getD 0 0))
     let v : ℤ := if s < 0 then jsTrunc (s * 0x8000) else jsTrunc (s * 0x7fff)
     let u : ℕ := (floatToPCM16 [(1 : ℚ)/2]).getD 0 0 +
                  256 * ((floatToPCM16 [(1 : ℚ)/2]).getD 1 0)
     ((if u < 32768 then (u : ℤ) else (u : ℤ) - 65536) = v ∧
      -32768 ≤ v ∧ v ≤ 32767)) := by
  have h := (C4_pcm16_encoding [(1 : ℚ)/2]).2.2 0 (by decide)
  simpa using h

/-! ### C2: averaging downsample correctness -/

theorem dsLoopPage_length (input : List ℚ) (rt : ℚ) (fuel r o : ℕ) :
    (dsLoopPage input rt fuel r o).length = fuel := by
  induction fuel generalizing r o with
  | zero => rfl
  | succ n ih => simp [dsLoopPage, ih]

theorem jsRoundNat_zero_mul (rt : ℚ) : jsRoundNat (((0 : ℕ) : ℚ) * rt) = 0 := by
  have h : ((0 : ℕ) : ℚ) * rt + 1/2 = 1/2 := by push_cast; ring
  simp only [jsRoundNat, jsRound, h]
  norm_num

theorem dsLoopPage_getD (input : List ℚ) (rt : ℚ) :
    ∀ (fuel r i : ℕ), i < fuel →
      (dsLoopPage input rt fuel r (jsRoundNat ((r : ℚ) * rt))).getD i 0 =
        winAvg input (jsRoundNat (((r + i : ℕ) : ℚ) * rt))
                     (jsRoundNat (((r + i + 1 : ℕ) : ℚ) * rt)) := by
  intro fuel
  induction fuel with
  | zero => exact fun r i h => absurd h (Nat.not_lt_zero i)
  | succ n ih =>
    intro r i h
    cases i with
    | zero =>
      simp only [dsLoopPage, List.getD_cons_zero, Nat.add_zero]
      congr 2
      push_cast
      ring
    | succ j =>
      have hj : j < n := by omega
      have hc : ((r : ℚ) + 1) = (((r + 1 : ℕ)) : ℚ) := by push_cast; ring
      have e1 : r + (j + 1) = (r + 1) + j := by omega
      have e2 : r + (j + 1) + 1 = (r + 1) + j + 1 := by omega
      simp only [dsLoopPage, List.getD_cons_succ, hc, e1, e2]
      exact ih (r + 1) j hj

theorem winAvg_min_form (input : List ℚ) (a b : ℕ) :
    winAvg input a b =
      (let w := (input.drop a).take (min b input.length - a)
       if w.length = 0 then 0 else w.sum / (w.length : ℚ)) := by
  have hw : (input.drop a).take (b - a) =
      (input.drop a).take (min b input.length - a) := by
    rcases le_or_lt b input.length with hb | hb
    · rw [min_eq_left hb]
    · rw [min_eq_right hb.le]
      have hlen : (input.drop a).length = input.length - a := List.length_drop a input
      have t1 : (input.drop a).take (b - a) = input.drop a :=
        (List.take_eq_self_iff _).mpr (by omega)
      have t2 : (input.drop a).take (input.length - a) = input.drop a :=
        (List.take_eq_self_iff _).mpr (by omega)
      rw [t1, t2]
  simp only [winAvg, hw]

/-- C2. For 0 < outRate < inRate, downsampleBuffer returns a buffer of
length round(n * outRate / inRate) whose sample i is the arithmetic mean of
the input samples at indices round(i * inRate/outRate) up to (exclusive)
min(round((i+1) * inRate/outRate), n), and 0 when that window is empty; for
outRate = inRate it returns the input unchanged; for outRate > inRate it
fails with an error. -/
theorem C2_downsample_correct (input : List ℚ) (inRate outRate : ℕ) :
    (0 < outRate → outRate < inRate →
      ∃ out, downsampleBuffer input inRate outRate = .ok out ∧
        out.length = jsRoundNat ((input.length : ℚ) * (outRate : ℚ) / (inRate : ℚ)) ∧
        (∀ i, i < out.length →
          out.getD i 0 =
            (let a := jsRoundNat ((i : ℚ) * (inRate : ℚ) / (outRate : ℚ))
             let b := jsRoundNat (((i : ℚ) + 1) * (inRate : ℚ) / (outRate : ℚ))
             let w := (input.drop a).take (min b input.length - a)
             if w.length = 0 then 0 else w.sum / (w.length : ℚ)))) ∧
    (outRate = inRate → downsampleBuffer input inRate outRate = .ok input) ∧
    (inRate < outRate →
      downsampleBuffer input inRate outRate = .error "outRate must be <= inRate") := by
  refine ⟨?_, ?_, ?_⟩
  · intro h1 h2
    have hne : ¬(outRate = inRate) := by omega
    have hlt : ¬(inRate < outRate) := by omega
    simp only [downsampleBuffer, if_neg hne, if_neg hlt]
    refine ⟨_, rfl, ?_, ?_⟩
    · rw [dsLoopPage_length]
      congr 1
      rw [div_div_eq_mul_div]
    · intro i hi
      rw [dsLoopPage_length] at hi
      have h0 := jsRoundNat_zero_mul ((inRate : ℚ) / (outRate : ℚ))
      calc (dsLoopPage input ((inRate : ℚ) / (outRate : ℚ)) _ 0 0).getD i 0
          = (dsLoopPage input ((inRate : ℚ) / (outRate : ℚ)) _ 0
              (jsRoundNat (((0 : ℕ) : ℚ) * ((inRate : ℚ) / (outRate : ℚ))))).getD i 0 := by
            rw [h0]
        _ = winAvg input
              (jsRoundNat (((0 + i : ℕ) : ℚ) * ((inRate : ℚ) / (outRate : ℚ))))
              (jsRoundNat (((0 + i + 1 : ℕ) : ℚ) * ((inRate : ℚ) / (outRate : ℚ)))) := by
            exact dsLoopPage_getD input _ _ 0 i hi
        _ = (let a := jsRoundNat ((i : ℚ) * (inRate : ℚ) / (outRate : ℚ))
             let b := jsRoundNat (((i : ℚ) + 1) * (inRate : ℚ) / (outRate : ℚ))
             let w := (input.drop a).take (min b input.length - a)
             if w.length = 0 then 0 else w.sum / (w.length : ℚ)) := by
            rw [winAvg_min_form]
            have ea : (((0 + i : ℕ)) : ℚ) * ((inRate : ℚ) / (outRate : ℚ))
                = (i : ℚ) * (inRate : ℚ) / (outRate : ℚ) := by push_cast; ring
            have eb : (((0 + i + 1 : ℕ)) : ℚ) * ((inRate : ℚ) / (outRate : ℚ))
                = ((i : ℚ) + 1) * (inRate : ℚ) / (outRate : ℚ) := by push_cast; ring
            rw [ea, eb]
  · intro h
    simp only [downsampleBuffer, if_pos h]
  · intro h
    have hne : ¬(outRate = inRate) := by omega
    simp only [downsampleBuffer, if_neg hne, if_pos h]

/-- Witness for C2: four samples downsampled from rate 4 to rate 2. -/
theorem C2_witness :
    ∃ out, downsampleBuffer [(1 : ℚ), 3, 5, 7] 4 2 = .ok out ∧
      out.length = jsRoundNat ((([(1 : ℚ), 3, 5, 7] : List ℚ).length : ℚ) * ((2 : ℕ) : ℚ) / ((4 : ℕ) : ℚ)) ∧
      (∀ i, i < out.length →
        out.getD i 0 =
          (let a := jsRoundNat ((i : ℚ) * ((4 : ℕ) : ℚ) / ((2 : ℕ) : ℚ))
           let b := jsRoundNat (((i : ℚ) + 1) * ((4 : ℕ) : ℚ) / ((2 : ℕ) : ℚ))
           let w := (([(1 : ℚ), 3, 5, 7] : List ℚ).drop a).take
                      (min b ([(1 : ℚ), 3, 5, 7] : List ℚ).length - a)
           if w.length = 0 then 0 else w.sum / (w.length : ℚ))) :=
  (C2_downsample_correct [(1 : ℚ), 3, 5, 7] 4 2).1 (by decide) (by decide)

/-! ### C3: duplicate-resampler equivalence -/

theorem dsLoopWorklet_eq_dsLoopPage (input : List ℚ) (rt : ℚ) :
    ∀ fuel r o, dsLoopWorklet input rt fuel r o = dsLoopPage input rt fuel r o := by
  intro fuel
  induction fuel with
  | zero => intro r o; rfl
  | succ n ih =>
    intro r o
    simp only [dsLoopWorklet, dsLoopPage]
    rw [ih]

/-- C3 counterexample: at input rate 8000 (below the 16000 target) the
page-level downsampleBuffer throws, while the worklet's downsampleTo16k
returns a buffer, so the two routines do not compute the same function on
every input rate. -/
theorem C3_counterexample :
    downsampleBuffer [(1 : ℚ)] 8000 16000 ≠
      .ok (downsampleTo16k [(1 : ℚ)] 8000) := by
  have h : downsampleBuffer [(1 : ℚ)] 8000 16000 =
      .error "outRate must be <= inRate" := rfl
  rw [h]
  intro hc
  exact Except.noConfusion hc

/-- C3 amended: for every input buffer and every input rate of at least
16000, the worklet's downsampleTo16k computes exactly the buffer the
page-level downsampleBuffer succeeds with; below 16000 the page routine
throws while the worklet one still returns a buffer. -/
theorem C3_resampler_equiv_amended (input : List ℚ) (inputRate : ℕ)
    (h : 16000 ≤ inputRate) :
    downsampleBuffer input inputRate 16000 = .ok (downsampleTo16k input inputRate) := by
  rcases eq_or_lt_of_le h with he | hlt
  · have hne2 : inputRate = targetRate := by simp only [targetRate]; omega
    simp only [downsampleBuffer, if_pos he, downsampleTo16k, if_pos hne2]
  · have hne : ¬((16000 : ℕ) = inputRate) := by omega
    have hlt2 : ¬(inputRate < 16000) := by omega
    have hne2 : ¬(inputRate = 16000) := by omega
    simp only [downsampleBuffer, if_neg hne, if_neg hlt2, downsampleTo16k,
      targetRate, if_neg hne2]
    rw [dsLoopWorklet_eq_dsLoopPage]

/-- Witness for the amended C3 at input rate 32000. -/
theorem C3_witness :
    downsampleBuffer [(1 : ℚ), 2] 32000 16000 =
      .ok (downsampleTo16k [(1 : ℚ), 2] 32000) :=
  C3_resampler_equiv_amended [(1 : ℚ), 2] 32000 (by decide)

/-! ### C5: local barge-in -/

/-- The tick's loudness condition: the mean square of the analyser buffer
exceeds 0.03^2, i.e. the RMS exceeds the BAR_GE_IN_RMS threshold 0.03. -/
def loud (micBuf : List ℚ) : Prop :=
  9/10000 < (micBuf.map (fun v => v * v)).sum / (micBuf.length : ℚ)

/-- A state in which an assistant reply is playing through the WebAudio
buffer-source path with capture muted and the socket open. -/
def c5WebAudioState : HookState :=
  { status := .running, wsRef := true, wsOpen := true, audioCtx := true,
    workletNode := true, sourceNode := true, mediaStream := true,
    analyserNode := true, rafId := true, captureMuted := true,
    bufferSource := true }

/-- C5 counterexample: with a WebAudio playback in progress, capture muted
and the socket open, three consecutive loud animation frames leave the state
completely unchanged — no playback cancellation, no unmute, no barge_in is
sent — because the monitor's isTtsPlaying only reads the HTMLAudio ref. So
the claimed behaviour does not hold for every playback path. -/
theorem C5_counterexample :
    c5WebAudioState.bufferSource = true ∧
    c5WebAudioState.captureMuted = true ∧
    c5WebAudioState.wsOpen = true ∧
    loud [(1 : ℚ)] ∧
    (stepEvent (.tick [(1 : ℚ)])
      (stepEvent (.tick [(1 : ℚ)])
        (stepEvent (.tick [(1 : ℚ)]) c5WebAudioState))) = c5WebAudioState := by
  refine ⟨rfl, rfl, rfl, ?_, by decide⟩
  norm_num [loud]

theorem tick_notPlaying (s : HookState) (b : List ℚ)
    (h : s.playingAudio = false) :
    stepEvent (.tick b) s = { s with hit := 0 } := by
  simp [stepEvent, tickStep, h]

theorem tick_fire (s : HookState) (b : List ℚ)
    (hplay : s.playingAudio = true) (hmut : s.captureMuted = true)
    (hopen : s.wsOpen = true) (hloud : loud b) (hhit : 2 ≤ s.hit) :
    stepEvent (.tick b) s =
      { s with hit := 0, bufferSource := false, playingAudio := false,
               playingUrl := false, captureMuted := false,
               sent := s.sent ++ [OutMsg.bargeInMsg] } := by
  have hl : 9/10000 < (b.map (fun v => v * v)).sum / (b.length : ℚ) := hloud
  have h3 : 3 ≤ s.hit + 1 := by omega
  simp [stepEvent, tickStep, stopPlaybackFn, hplay, hmut, hopen, hl, h3]

theorem tick_advance (s : HookState) (b : List ℚ)
    (hplay : s.playingAudio = true) (hmut : s.captureMuted = true)
    (hloud : loud b) (hlt : s.hit + 1 < 3) :
    stepEvent (.tick b) s = { s with hit := s.hit + 1 } := by
  have hl : 9/10000 < (b.map (fun v => v * v)).sum / (b.length : ℚ) := hloud
  have h3 : ¬(3 ≤ s.hit + 1) := by omega
  simp [stepEvent, tickStep, hplay, hmut, hl, h3]

/-- C5 amended: the claimed barge-in behaviour holds for the HTMLAudio
playback path (the one the monitor's isTtsPlaying actually checks): with an
unpaused HTMLAudio element playing, capture muted and the socket open, three
consecutive animation frames with RMS above 0.03 cancel the playback, clear
the capture mute, and send barge_in; for the WebAudio buffer-source path the
monitor never fires (see the counterexample). -/
theorem C5_barge_in_amended (s : HookState) (b1 b2 b3 : List ℚ)
    (hplay : s.playingAudio = true) (hmut : s.captureMuted = true)
    (hopen : s.wsOpen = true)
    (h1 : loud b1) (h2 : loud b2) (h3 : loud b3) :
    (stepEvent (.tick b3) (stepEvent (.tick b2)
      (stepEvent (.tick b1) s))).captureMuted = false ∧
    (stepEvent (.tick b3) (stepEvent (.tick b2)
      (stepEvent (.tick b1) s))).playingAudio = false ∧
    (stepEvent (.tick b3) (stepEvent (.tick b2)
      (stepEvent (.tick b1) s))).bufferSource = false ∧
    (stepEvent (.tick b3) (stepEvent (.tick b2)
      (stepEvent (.tick b1) s))).playingUrl = false ∧
    OutMsg.bargeInMsg ∈ (stepEvent (.tick b3) (stepEvent (.tick b2)
      (stepEvent (.tick b1) s))).sent := by
  by_cases hc2 : 2 ≤ s.hit
  · rw [tick_fire s b1 hplay hmut hopen h1 hc2]
    rw [tick_notPlaying _ b2 rfl, tick_notPlaying _ b3 rfl]
    simp
  · by_cases hc1 : s.hit = 1
    · rw [tick_advance s b1 hplay hmut h1 (by omega)]
      rw [tick_fire { s with hit := s.hit + 1 } b2 hplay hmut hopen h2
        (show 2 ≤ s.hit + 1 by omega)]
      rw [tick_notPlaying _ b3 rfl]
      simp
    · have hc0 : s.hit = 0 := by omega
      rw [tick_advance s b1 hplay hmut h1 (by omega)]
      rw [tick_advance { s with hit := s.hit + 1 } b2 hplay hmut h2
        (show s.hit + 1 + 1 < 3 by omega)]
      rw [tick_fire { s with hit := s.hit + 1 + 1 } b3 hplay hmut hopen h3
        (show 2 ≤ s.hit + 1 + 1 by omega)]
      simp

/-- A state in which an assistant reply is playing through the HTMLAudio
fallback path with capture muted and the socket open. -/
def c5HtmlState : HookState :=
  { status := .running, wsRef := true, wsOpen := true, audioCtx := true,
    workletNode := true, sourceNode := true, mediaStream := true,
    analyserNode := true, rafId := true, captureMuted := true,
    playingAudio := true, playingUrl := true }

/-- Witness for the amended C5 at a concrete HTMLAudio-playing state. -/
theorem C5_witness :
    (stepEvent (.tick [(1 : ℚ)]) (stepEvent (.tick [(1 : ℚ)])
      (stepEvent (.tick [(1 : ℚ)]) c5HtmlState))).captureMuted = false ∧
    (stepEvent (.tick [(1 : ℚ)]) (stepEvent (.tick [(1 : ℚ)])
      (stepEvent (.tick [(1 : ℚ)]) c5HtmlState))).playingAudio = false ∧
    (stepEvent (.tick [(1 : ℚ)]) (stepEvent (.tick [(1 : ℚ)])
      (stepEvent (.tick [(1 : ℚ)]) c5HtmlState))).bufferSource = false ∧
    (stepEvent (.tick [(1 : ℚ)]) (stepEvent (.tick [(1 : ℚ)])
      (stepEvent (.tick [(1 : ℚ)]) c5HtmlState))).playingUrl = false ∧
    OutMsg.bargeInMsg ∈ (stepEvent (.tick [(1 : ℚ)]) (stepEvent (.tick [(1 : ℚ)])
      (stepEvent (.tick [(1 : ℚ)]) c5HtmlState))).sent :=
  C5_barge_in_amended c5HtmlState [(1 : ℚ)] [(1 : ℚ)] [(1 : ℚ)] rfl rfl rfl
    (by norm_num [loud]) (by norm_num [loud]) (by norm_num [loud])

/-! ### C6: capture mute during playback -/

/-- C6. While capture is muted no worklet microphone frame reaches ws.send
(the handler returns with the state unchanged); the only events that clear
the mute are a playback onended (WebAudio or HTMLAudio), a partial
transcript message, a barge-in monitor tick, and the paths that run stop()
(the stop call itself, a socket error, a server error message, a capture
setup failure); and each of the listed clearing events does clear it, the
partial message also halting playback. -/
theorem C6_capture_mute (s : HookState) (d : List ℕ) (e : Event)
    (t : Option String) (c : Bool) :
    (s.captureMuted = true → stepEvent (.micFrame d) s = s) ∧
    (s.captureMuted = true → (stepEvent e s).captureMuted = false →
      ((∃ b, e = .webAudioEnded b) ∨ (∃ b, e = .htmlAudioEnded b) ∨
       (∃ u, e = .serverText (.partMsg u)) ∨ (∃ buf, e = .tick buf) ∨
       e = .stopCall ∨ e = .wsError ∨
       (∃ u, e = .serverText (.errorMsg u)) ∨ e = .wsOpened false)) ∧
    (stepEvent (.webAudioEnded c) s).captureMuted = false ∧
    (stepEvent (.htmlAudioEnded c) s).captureMuted = false ∧
    (stepEvent (.serverText (.partMsg t)) s).captureMuted = false ∧
    (stepEvent (.serverText (.partMsg t)) s).bufferSource = false ∧
    (stepEvent (.serverText (.partMsg t)) s).playingAudio = false ∧
    (stepEvent .stopCall s).captureMuted = false := by
  refine ⟨?_, ?_, ?_, ?_, rfl, rfl, rfl, ?_⟩
  · intro hm
    simp [stepEvent, micFrameStep, hm]
  · intro hm hcl
    cases e with
    | startCall ok =>
      exfalso
      simp only [stepEvent, startCallStep] at hcl
      split_ifs at hcl <;> simp_all
    | wsOpened ok =>
      cases ok with
      | true =>
        exfalso
        simp only [stepEvent, wsOpenedStep, if_pos] at hcl
        simp_all
      | false =>
        exact Or.inr (Or.inr (Or.inr (Or.inr (Or.inr (Or.inr (Or.inr rfl))))))
    | micFrame dd =>
      exfalso
      simp only [stepEvent, micFrameStep] at hcl
      split_ifs at hcl <;> simp_all
    | serverText m =>
      cases m with
      | partMsg u => exact Or.inr (Or.inr (Or.inl ⟨u, rfl⟩))
      | errorMsg u =>
        exact Or.inr (Or.inr (Or.inr (Or.inr (Or.inr (Or.inr (Or.inl ⟨u, rfl⟩))))))
      | finalMsg u =>
        exfalso
        simp only [stepEvent, serverTextStep] at hcl
        simp_all
      | botTextMsg u =>
        exfalso
        simp only [stepEvent, serverTextStep] at hcl
        simp_all
      | stopPlaybackMsg p =>
        exfalso
        cases p <;>
          simp only [stepEvent, serverTextStep, stopPlaybackFn] at hcl <;>
          simp_all
      | unknownMsg =>
        exfalso
        simp only [stepEvent, serverTextStep] at hcl
        simp_all
    | serverBinary bb ok =>
      exfalso
      simp only [stepEvent, serverBinaryStep, playWav, stopPlaybackFn] at hcl
      split_ifs at hcl <;> simp_all
    | tick buf => exact Or.inr (Or.inr (Or.inr (Or.inl ⟨buf, rfl⟩)))
    | webAudioEnded b => exact Or.inl ⟨b, rfl⟩
    | htmlAudioEnded b => exact Or.inr (Or.inl ⟨b, rfl⟩)
    | wsError =>
      exact Or.inr (Or.inr (Or.inr (Or.inr (Or.inr (Or.inl rfl)))))
    | wsClosed =>
      exfalso
      simp only [stepEvent] at hcl
      simp_all
    | stopCall =>
      exact Or.inr (Or.inr (Or.inr (Or.inr (Or.inl rfl))))
  · simp only [stepEvent, webAudioEndedStep]
    split_ifs <;> rfl
  · simp only [stepEvent, htmlAudioEndedStep]
    split_ifs <;> rfl
  · simp only [stepEvent, stopFn, cleanupAudioCaptureFn, stopPlaybackFn]
    split_ifs <;> rfl

/-- A state with capture muted during a playback. -/
def c6MutedState : HookState :=
  { status := .running, wsRef := true, wsOpen := true, audioCtx := true,
    captureMuted := true, bufferSource := true }

/-- Witness for C6: with capture muted, a microphone frame is not sent (the
state is unchanged), and stop() clears the mute. -/
theorem C6_witness :
    stepEvent (.micFrame [3]) c6MutedState = c6MutedState ∧
    (stepEvent .stopCall c6MutedState).captureMuted = false :=
  ⟨(C6_capture_mute c6MutedState [3] .stopCall none true).1 rfl,
   (C6_capture_mute c6MutedState [3] .stopCall none true).2.2.2.2.2.2.2⟩

/-! ### C7: the start handshake precedes all audio frames -/

/-- Is this outgoing message the start handshake? -/
def isStartMsg : OutMsg → Bool
  | .startMsg _ _ => true
  | _ => false

/-- Is this outgoing message a binary microphone frame? -/
def isAudioMsg : OutMsg → Bool
  | .audioFrame _ => true
  | _ => false

/-- Is this event the socket's onopen callback? -/
def isOpenEv : Event → Bool
  | .wsOpened _ => true
  | _ => false

/-- No microphone audio frame occurs before the first start handshake. -/
def noAudioBeforeStart (l : List OutMsg) : Prop :=
  (l.takeWhile (fun m => !isStartMsg m)).countP isAudioMsg = 0

theorem takeWhile_append_stop {α : Type} (p : α → Bool) (l l' : List α)
    (h : ∃ a ∈ l, p a = false) :
    (l ++ l').takeWhile p = l.takeWhile p := by
  induction l with
  | nil =>
    rcases h with ⟨a, ha, _⟩
    simp at ha
  | cons x xs ih =>
    by_cases hx : p x = true
    · rcases h with ⟨a, ha, hpa⟩
      rcases List.mem_cons.mp ha with rfl | hmem
      · rw [hx] at hpa; cases hpa
      · simp only [List.cons_append, List.takeWhile_cons, hx, if_true]
        rw [ih ⟨a, hmem, hpa⟩]
    · have hx' : p x = false := by revert hx; cases p x <;> simp
      simp only [List.cons_append, List.takeWhile_cons, hx', Bool.false_eq_true,
        if_false]

theorem takeWhile_append_all {α : Type} (p : α → Bool) (l l' : List α)
    (h : ∀ a ∈ l, p a = true) :
    (l ++ l').takeWhile p = l ++ l'.takeWhile p := by
  induction l with
  | nil => simp
  | cons x xs ih =>
    have hx := h x (List.mem_cons_self x xs)
    simp only [List.cons_append, List.takeWhile_cons, hx, if_true]
    rw [ih (fun a ha => h a (List.mem_cons_of_mem x ha))]

theorem takeWhile_eq_self_of_all {α : Type} (p : α → Bool) (l : List α)
    (h : ∀ a ∈ l, p a = true) :
    l.takeWhile p = l := by
  induction l with
  | nil => rfl
  | cons x xs ih =>
    have hx := h x (List.mem_cons_self x xs)
    simp only [List.takeWhile_cons, hx, if_true]
    rw [ih (fun a ha => h a (List.mem_cons_of_mem x ha))]

theorem countP_takeWhile_le {α : Type} (p q : α → Bool) (l : List α) :
    (l.takeWhile q).countP p ≤ l.countP p := by
  induction l with
  | nil => simp
  | cons x xs ih =>
    by_cases hx : q x = true
    · simp only [List.takeWhile_cons, hx, if_true, List.countP_cons]
      omega
    · have hx' : q x = false := by revert hx; cases q x <;> simp
      simp only [List.takeWhile_cons, hx', Bool.false_eq_true, if_false,
        List.countP_nil, List.countP_cons]
      omega

theorem noAudioBeforeStart_append (l ds : List OutMsg)
    (hl : noAudioBeforeStart l)
    (h : ds.countP isAudioMsg = 0 ∨ 0 < l.countP isStartMsg) :
    noAudioBeforeStart (l ++ ds) := by
  by_cases hstart : ∃ a ∈ l, (!isStartMsg a) = false
  · unfold noAudioBeforeStart at *
    rw [takeWhile_append_stop _ _ _ hstart]
    exact hl
  · push_neg at hstart
    have hall : ∀ a ∈ l, (!isStartMsg a) = true := by
      intro a ha
      have := hstart a ha
      revert this
      cases (!isStartMsg a) <;> simp
    have hcount : l.countP isStartMsg = 0 := by
      rw [List.countP_eq_zero]
      intro a ha
      have := hall a ha
      simp at this
      simp [this]
    rcases h with hds | hpos
    · unfold noAudioBeforeStart at *
      rw [takeWhile_append_all _ _ _ hall, List.countP_append]
      rw [takeWhile_eq_self_of_all _ _ hall] at hl
      have hle := countP_takeWhile_le isAudioMsg (fun m => !isStartMsg m) ds
      omega
    · omega

/-- The inductive invariant behind C7: no audio frame was ever sent before
the first start handshake, a socket that is open has already carried a start
handshake, and every start handshake sent is the literal
start/16000/pcm16 message. -/
def C7Inv (s : HookState) : Prop :=
  noAudioBeforeStart s.sent ∧
  (s.wsOpen = true → 0 < s.sent.countP isStartMsg) ∧
  (∀ m ∈ s.sent, isStartMsg m = true → m = OutMsg.startMsg 16000 "pcm16")

theorem C7Inv_congr (s s' : HookState) (hsent : s'.sent = s.sent)
    (hopen : s'.wsOpen = s.wsOpen) (h : C7Inv s) : C7Inv s' := by
  unfold C7Inv at *
  rw [hsent, hopen]
  exact h

theorem C7Inv_extend (s s' : HookState) (ds : List OutMsg)
    (hsent : s'.sent = s.sent ++ ds)
    (hopen : s'.wsOpen = s.wsOpen ∨ s'.wsOpen = false)
    (hds_start : ∀ m ∈ ds, isStartMsg m = false)
    (hds_audio : ds.countP isAudioMsg = 0 ∨ 0 < s.sent.countP isStartMsg)
    (hs : C7Inv s) :
    C7Inv s' ∧ s'.sent.countP isStartMsg = s.sent.countP isStartMsg := by
  have hdcount : ds.countP isStartMsg = 0 := by
    rw [List.countP_eq_zero]
    intro a ha
    simp [hds_start a ha]
  have hccount : s'.sent.countP isStartMsg = s.sent.countP isStartMsg := by
    rw [hsent, List.countP_append, hdcount, Nat.add_zero]
  refine ⟨⟨?_, ?_, ?_⟩, hccount⟩
  · rw [hsent]
    exact noAudioBeforeStart_append _ _ hs.1 hds_audio
  · intro ho
    rw [hccount]
    rcases hopen with he | he
    · exact hs.2.1 (he ▸ ho)
    · rw [he] at ho; cases ho
  · intro m hm hsm
    rw [hsent] at hm
    rcases List.mem_append.mp hm with hold | hnew
    · exact hs.2.2 m hold hsm
    · rw [hds_start m hnew] at hsm; cases hsm

theorem C7Inv_open (s s' : HookState) (ds' : List OutMsg)
    (hsent : s'.sent = s.sent ++ (OutMsg.startMsg 16000 "pcm16" :: ds'))
    (hds : ∀ m ∈ ds', isStartMsg m = false ∧ isAudioMsg m = false)
    (hs : C7Inv s) :
    C7Inv s' ∧ s'.sent.countP isStartMsg = s.sent.countP isStartMsg + 1 := by
  have hdaudio : (OutMsg.startMsg 16000 "pcm16" :: ds').countP isAudioMsg = 0 := by
    rw [List.countP_eq_zero]
    intro a ha
    rcases List.mem_cons.mp ha with rfl | hmem
    · simp [isAudioMsg]
    · simp [(hds a hmem).2]
  have hdstart : (OutMsg.startMsg 16000 "pcm16" :: ds').countP isStartMsg = 1 := by
    rw [List.countP_cons]
    have : ds'.countP isStartMsg = 0 := by
      rw [List.countP_eq_zero]
      intro a ha
      simp [(hds a ha).1]
    simp [this, isStartMsg]
  have hccount : s'.sent.countP isStartMsg = s.sent.countP isStartMsg + 1 := by
    rw [hsent, List.countP_append, hdstart]
  refine ⟨⟨?_, ?_, ?_⟩, hccount⟩
  · rw [hsent]
    exact noAudioBeforeStart_append _ _ hs.1 (Or.inl hdaudio)
  · intro _
    rw [hccount]
    omega
  · intro m hm hsm
    rw [hsent] at hm
    rcases List.mem_append.mp hm with hold | hnew
    · exact hs.2.2 m hold hsm
    · rcases List.mem_cons.mp hnew with rfl | hmem
      · rfl
      · rw [(hds m hmem).1] at hsm; cases hsm

theorem C7Inv_stopFn (s : HookState) (hs : C7Inv s) :
    C7Inv (stopFn s) ∧
    (stopFn s).sent.countP isStartMsg = s.sent.countP isStartMsg := by
  by_cases hw : s.wsRef ∧ s.wsOpen
  · refine C7Inv_extend s (stopFn s) [OutMsg.stopMsg] ?_ ?_ ?_ ?_ hs
    · simp only [stopFn, cleanupAudioCaptureFn, stopPlaybackFn]
      rw [if_pos hw]
      split_ifs <;> rfl
    · simp only [stopFn, cleanupAudioCaptureFn, stopPlaybackFn]
      rw [if_pos hw]
      split_ifs with h5
      · right; rfl
      · exact absurd hw.1 h5
    · intro m hm
      rcases List.mem_cons.mp hm with rfl | hmem
      · rfl
      · simp at hmem
    · left; rfl
  · have hsent : (stopFn s).sent = s.sent := by
      simp only [stopFn, cleanupAudioCaptureFn, stopPlaybackFn]
      rw [if_neg hw]
      split_ifs <;> rfl
    have hopen : (stopFn s).wsOpen = s.wsOpen ∨ (stopFn s).wsOpen = false := by
      simp only [stopFn, cleanupAudioCaptureFn, stopPlaybackFn]
      rw [if_neg hw]
      split_ifs
      · right; rfl
      · left; rfl
    exact C7Inv_extend s (stopFn s) [] (by rw [hsent]; simp) hopen
      (by simp) (by simp) hs

theorem C7Inv_step (e : Event) (s : HookState) (hs : C7Inv s) :
    C7Inv (stepEvent e s) ∧
    (stepEvent e s).sent.countP isStartMsg =
      s.sent.countP isStartMsg + (if isOpenEv e then 1 else 0) := by
  cases e with
  | startCall ok =>
    have hsent : (stepEvent (.startCall ok) s).sent = s.sent := by
      simp only [stepEvent, startCallStep]
      split_ifs <;> rfl
    have hopen : (stepEvent (.startCall ok) s).wsOpen = s.wsOpen := by
      simp only [stepEvent, startCallStep]
      split_ifs <;> rfl
    exact ⟨C7Inv_congr s _ hsent hopen hs, by rw [hsent]; simp [isOpenEv]⟩
  | wsOpened ok =>
    cases ok with
    | true =>
      have h := C7Inv_open s (stepEvent (.wsOpened true) s) [] rfl
        (by simp) hs
      exact ⟨h.1, by rw [h.2]; simp [isOpenEv]⟩
    | false =>
      have h1 := C7Inv_open s
        ({ s with wsOpen := true,
                  sent := s.sent ++ [OutMsg.startMsg 16000 "pcm16"] }) []
        (by simp) (by simp) hs
      have h2 := C7Inv_stopFn _ h1.1
      refine ⟨h2.1, ?_⟩
      show (stopFn _).sent.countP _ = _
      rw [h2.2]
      simp only at h1
      rw [h1.2]
      simp [isOpenEv]
  | micFrame d =>
    by_cases hm : s.captureMuted = true
    · have hsent : (stepEvent (.micFrame d) s).sent = s.sent := by
        simp [stepEvent, micFrameStep, hm]
      have hopen : (stepEvent (.micFrame d) s).wsOpen = s.wsOpen := by
        simp [stepEvent, micFrameStep, hm]
      exact ⟨C7Inv_congr s _ hsent hopen hs, by rw [hsent]; simp [isOpenEv]⟩
    · have hm' : s.captureMuted = false := by
        revert hm; cases s.captureMuted <;> simp
      by_cases ho : s.wsOpen = true
      · have hsent : (stepEvent (.micFrame d) s).sent =
            s.sent ++ [OutMsg.audioFrame d] := by
          simp [stepEvent, micFrameStep, hm', ho]
        have hopen : (stepEvent (.micFrame d) s).wsOpen = s.wsOpen := by
          simp [stepEvent, micFrameStep, hm', ho]
        have hext := C7Inv_extend s _ [OutMsg.audioFrame d] hsent (Or.inl hopen)
          (by intro m hm2; simp at hm2; subst hm2; rfl)
          (Or.inr (hs.2.1 ho)) hs
        exact ⟨hext.1, by rw [hext.2]; simp [isOpenEv]⟩
      · have ho' : s.wsOpen = false := by
          revert ho; cases s.wsOpen <;> simp
        have hsent : (stepEvent (.micFrame d) s).sent = s.sent := by
          simp [stepEvent, micFrameStep, hm', ho']
        have hopen : (stepEvent (.micFrame d) s).wsOpen = s.wsOpen := by
          simp [stepEvent, micFrameStep, hm', ho']
        exact ⟨C7Inv_congr s _ hsent hopen hs, by rw [hsent]; simp [isOpenEv]⟩
  | serverText m =>
    cases m with
    | errorMsg u =>
      have h := C7Inv_stopFn s hs
      exact ⟨h.1, by rw [show (stepEvent (.serverText (.errorMsg u)) s).sent
        = (stopFn s).sent from rfl, h.2]; simp [isOpenEv]⟩
    | partMsg u =>
      exact ⟨C7Inv_congr s _ rfl rfl hs, by simp [isOpenEv,
        show (stepEvent (.serverText (.partMsg u)) s).sent = s.sent from rfl]⟩
    | finalMsg u =>
      exact ⟨C7Inv_congr s _ rfl rfl hs, by simp [isOpenEv,
        show (stepEvent (.serverText (.finalMsg u)) s).sent = s.sent from rfl]⟩
    | botTextMsg u =>
      exact ⟨C7Inv_congr s _ rfl rfl hs, by simp [isOpenEv,
        show (stepEvent (.serverText (.botTextMsg u)) s).sent = s.sent from rfl]⟩
    | stopPlaybackMsg p =>
      cases p with
      | some q =>
        exact ⟨C7Inv_congr s _ rfl rfl hs, by simp [isOpenEv,
          show (stepEvent (.serverText (.stopPlaybackMsg (some q))) s).sent
            = s.sent from rfl]⟩
      | none =>
        exact ⟨C7Inv_congr s _ rfl rfl hs, by simp [isOpenEv,
          show (stepEvent (.serverText (.stopPlaybackMsg none)) s).sent
            = s.sent from rfl]⟩
    | unknownMsg =>
      exact ⟨C7Inv_congr s _ rfl rfl hs, by simp [isOpenEv,
        show (stepEvent (.serverText .unknownMsg) s).sent = s.sent from rfl]⟩
  | serverBinary b ok =>
    have hsent : (stepEvent (.serverBinary b ok) s).sent = s.sent := by
      simp only [stepEvent, serverBinaryStep, playWav, stopPlaybackFn]
      split_ifs <;> rfl
    have hopen : (stepEvent (.serverBinary b ok) s).wsOpen = s.wsOpen := by
      simp only [stepEvent, serverBinaryStep, playWav, stopPlaybackFn]
      split_ifs <;> rfl
    exact ⟨C7Inv_congr s _ hsent hopen hs, by rw [hsent]; simp [isOpenEv]⟩
  | tick buf =>
    have hopen : (stepEvent (.tick buf) s).wsOpen = s.wsOpen := by
      simp only [stepEvent, tickStep, stopPlaybackFn]
      split_ifs <;> rfl
    have hsent : (stepEvent (.tick buf) s).sent = s.sent ∨
        (stepEvent (.tick buf) s).sent = s.sent ++ [OutMsg.bargeInMsg] := by
      simp only [stepEvent, tickStep, stopPlaybackFn]
      split_ifs <;> simp
    rcases hsent with h | h
    · exact ⟨C7Inv_congr s _ h hopen hs, by rw [h]; simp [isOpenEv]⟩
    · have hext := C7Inv_extend s _ [OutMsg.bargeInMsg] h (Or.inl hopen)
        (by intro m hm2; simp at hm2; subst hm2; rfl)
        (Or.inl (by simp [isAudioMsg])) hs
      exact ⟨hext.1, by rw [hext.2]; simp [isOpenEv]⟩
  | webAudioEnded c =>
    have hsent : (stepEvent (.webAudioEnded c) s).sent = s.sent := by
      simp only [stepEvent, webAudioEndedStep]
      split_ifs <;> rfl
    have hopen : (stepEvent (.webAudioEnded c) s).wsOpen = s.wsOpen := by
      simp only [stepEvent, webAudioEndedStep]
      split_ifs <;> rfl
    exact ⟨C7Inv_congr s _ hsent hopen hs, by rw [hsent]; simp [isOpenEv]⟩
  | htmlAudioEnded c =>
    have hsent : (stepEvent (.htmlAudioEnded c) s).sent = s.sent := by
      simp only [stepEvent, htmlAudioEndedStep]
      split_ifs <;> rfl
    have hopen : (stepEvent (.htmlAudioEnded c) s).wsOpen = s.wsOpen := by
      simp only [stepEvent, htmlAudioEndedStep]
      split_ifs <;> rfl
    exact ⟨C7Inv_congr s _ hsent hopen hs, by rw [hsent]; simp [isOpenEv]⟩
  | wsError =>
    have h := C7Inv_stopFn s hs
    exact ⟨h.1, by rw [show (stepEvent .wsError s).sent = (stopFn s).sent
      from rfl, h.2]; simp [isOpenEv]⟩
  | wsClosed =>
    have hext := C7Inv_extend s (stepEvent .wsClosed s) [] (by simp [stepEvent])
      (Or.inr rfl) (by simp) (by simp) hs
    exact ⟨hext.1, by rw [hext.2]; simp [isOpenEv]⟩
  | stopCall =>
    have h := C7Inv_stopFn s hs
    exact ⟨h.1, by rw [show (stepEvent .stopCall s).sent = (stopFn s).sent
      from rfl, h.2]; simp [isOpenEv]⟩

theorem C7_run (es : List Event) (s : HookState) (hs : C7Inv s) :
    C7Inv (runFrom s es) ∧
    (runFrom s es).sent.countP isStartMsg =
      s.sent.countP isStartMsg + es.countP isOpenEv := by
  induction es generalizing s with
  | nil => exact ⟨hs, by simp [runFrom]⟩
  | cons e es ih =>
    have hstep := C7Inv_step e s hs
    have hrec := ih (stepEvent e s) hstep.1
    have hrun : runFrom s (e :: es) = runFrom (stepEvent e s) es := rfl
    rw [hrun]
    refine ⟨hrec.1, ?_⟩
    rw [hrec.2, hstep.2, List.countP_cons]
    omega

/-- C7. In any event trace with exactly one socket-open event, the hook
sends exactly one start handshake; every start handshake it ever sends is
the literal start message with sample_rate 16000 and format pcm16; and no
microphone audio frame is ever sent before the first start handshake. -/
theorem C7_start_handshake (es : List Event) :
    (es.countP isOpenEv = 1 →
      (runEvents es).sent.countP isStartMsg = 1) ∧
    (∀ m ∈ (runEvents es).sent, isStartMsg m = true →
      m = OutMsg.startMsg 16000 "pcm16") ∧
    noAudioBeforeStart (runEvents es).sent := by
  have h0 : C7Inv initState := by
    refine ⟨?_, ?_, ?_⟩ <;> simp [noAudioBeforeStart, initState]
  have h := C7_run es initState h0
  refine ⟨?_, h.1.2.2, h.1.1⟩
  intro h1
  rw [runEvents] at *
  rw [h.2, h1]
  simp [initState]

/-- Witness for C7 on the trace start, onopen, one microphone frame. -/
theorem C7_witness :
    (runEvents [.startCall true, .wsOpened true, .micFrame [1, 2]]).sent.countP
      isStartMsg = 1 ∧
    noAudioBeforeStart
      (runEvents [.startCall true, .wsOpened true, .micFrame [1, 2]]).sent :=
  ⟨(C7_start_handshake [.startCall true, .wsOpened true, .micFrame [1, 2]]).1
      (by decide),
   (C7_start_handshake [.startCall true, .wsOpened true, .micFrame [1, 2]]).2.2⟩

/-! ### C10: hysteresis labeler stability -/

theorem getD_take_of_lt {α : Type} (l : List α) (m n : ℕ) (d : α) (h : m < n) :
    (l.take n).getD m d = l.getD m d := by
  rw [List.getD_eq_getElem?_getD, List.getD_eq_getElem?_getD,
    List.getElem?_take_of_lt h]

theorem take_succ_getD {α : Type} (l : List α) (j : ℕ) (d : α)
    (hj : j < l.length) :
    l.take (j + 1) = l.take j ++ [l.getD j d] := by
  rw [List.take_succ]
  congr 1
  rw [List.getElem?_eq_getElem hj, List.getD_eq_getElem?_getD,
    List.getElem?_eq_getElem hj]
  rfl

theorem HLState.step_snd (st : HLState) (x : ExprLabel) :
    (st.step x).2 = (st.step x).1.current := by
  simp only [HLState.step]
  split_ifs <;> rfl

theorem HLState.stateAfter_append (st : HLState) (l : List ExprLabel)
    (x : ExprLabel) :
    st.stateAfter (l ++ [x]) = ((st.stateAfter l).step x).1 := by
  simp [HLState.stateAfter, List.foldl_append]

theorem HLState.step_hold (st : HLState) (x : ExprLabel) :
    (st.step x).1.hold = st.hold := by
  simp only [HLState.step]
  split_ifs <;> rfl

theorem HLState.stateAfter_hold (st : HLState) (l : List ExprLabel) :
    (st.stateAfter l).hold = st.hold := by
  induction l using List.reverseRecOn with
  | nil => rfl
  | append_singleton l a ih => rw [HLState.stateAfter_append, HLState.step_hold, ih]

theorem HLState.runList_getD (st : HLState) (ins : List ExprLabel) (j : ℕ)
    (hj : j < ins.length) :
    (st.runList ins).getD j .neutral = (st.stateAfter (ins.take (j + 1))).current := by
  induction ins generalizing st j with
  | nil => simp at hj
  | cons x xs ih =>
    cases j with
    | zero =>
      show (st.step x).2 = (st.stateAfter [x]).current
      rw [HLState.step_snd]
      rfl
    | succ j =>
      have hj' : j < xs.length := by simpa using hj
      show ((st.step x).1.runList xs).getD j .neutral = _
      rw [ih (st.step x).1 j hj']
      rfl

theorem step_eq_current (st : HLState) (x : ExprLabel) (h : x = st.current) :
    (st.step x).1 = { st with candidate := x, hits := 0 } := by
  simp [HLState.step, h]

theorem step_fst_adv (st : HLState) (x : ExprLabel) (h1 : ¬x = st.current)
    (h2 : x = st.candidate) (h3 : ¬st.hold ≤ st.hits + 1) :
    (st.step x).1 = { st with hits := st.hits + 1 } := by
  have h1' : ¬st.candidate = st.current := h2 ▸ h1
  simp [HLState.step, h1, h2, h1', h3]

theorem step_fst_fire_adv (st : HLState) (x : ExprLabel) (h1 : ¬x = st.current)
    (h2 : x = st.candidate) (h3 : st.hold ≤ st.hits + 1) :
    (st.step x).1 = { st with current := st.candidate, hits := 0 } := by
  have h1' : ¬st.candidate = st.current := h2 ▸ h1
  simp [HLState.step, h1, h2, h1', h3]

theorem step_fst_newcand (st : HLState) (x : ExprLabel) (h1 : ¬x = st.current)
    (h2 : ¬x = st.candidate) (h3 : ¬st.hold ≤ 1) :
    (st.step x).1 = { st with candidate := x, hits := 1 } := by
  simp [HLState.step, h1, h2, h3]

theorem step_fst_fire_new (st : HLState) (x : ExprLabel) (h1 : ¬x = st.current)
    (h2 : ¬x = st.candidate) (h3 : st.hold ≤ 1) :
    (st.step x).1 = { st with current := x, candidate := x, hits := 0 } := by
  simp [HLState.step, h1, h2, h3]

/-- The labeler's inductive invariant relative to the labels consumed so far:
hits never exceeds the number of calls, the last hits inputs all equal the
candidate, and the current label is the initial neutral or some past input. -/
def HLInv (l : List ExprLabel) (st : HLState) : Prop :=
  st.hits ≤ l.length ∧
  (∀ m, l.length ≤ m + st.hits → m < l.length → l.getD m .neutral = st.candidate) ∧
  (st.current = .neutral ∨ st.current ∈ l)

theorem HLInv_step (l : List ExprLabel) (st : HLState) (x : ExprLabel)
    (h : HLInv l st) : HLInv (l ++ [x]) (st.step x).1 := by
  obtain ⟨h1, h2, h3⟩ := h
  have hlen : (l ++ [x]).length = l.length + 1 := by simp
  by_cases hc : x = st.current
  · rw [step_eq_current st x hc]
    refine ⟨by simp, ?_, ?_⟩
    · intro m hm1 hm2
      simp only [hlen] at hm1 hm2
      simp at hm1
      omega
    · rcases h3 with hne | hmem
      · exact Or.inl hne
      · exact Or.inr (List.mem_append_left _ hmem)
  · by_cases hc2 : x = st.candidate
    · by_cases hf : st.hold ≤ st.hits + 1
      · rw [step_fst_fire_adv st x hc hc2 hf]
        refine ⟨by simp, ?_, ?_⟩
        · intro m hm1 hm2
          simp only [hlen] at hm1 hm2
          simp at hm1
          omega
        · refine Or.inr ?_
          show st.candidate ∈ l ++ [x]
          rw [← hc2]
          exact List.mem_append_right _ (List.mem_singleton_self x)
      · rw [step_fst_adv st x hc hc2 hf]
        refine ⟨by simp; omega, ?_, ?_⟩
        · intro m hm1 hm2
          simp only [hlen] at hm1 hm2
          by_cases hm : m = l.length
          · subst hm
            rw [List.getD_append_right _ _ _ _ (le_refl _)]
            simpa using hc2
          · have hmlt : m < l.length := by omega
            rw [List.getD_append _ _ _ _ hmlt]
            exact h2 m (by omega) hmlt
        · rcases h3 with hne | hmem
          · exact Or.inl hne
          · exact Or.inr (List.mem_append_left _ hmem)
    · by_cases hf : st.hold ≤ 1
      · rw [step_fst_fire_new st x hc hc2 hf]
        refine ⟨by simp, ?_, ?_⟩
        · intro m hm1 hm2
          simp only [hlen] at hm1 hm2
          simp at hm1
          omega
        · exact Or.inr (List.mem_append_right _ (List.mem_singleton_self x))
      · rw [step_fst_newcand st x hc hc2 hf]
        refine ⟨by simp, ?_, ?_⟩
        · intro m hm1 hm2
          simp only [hlen] at hm1 hm2
          simp at hm1
          have hm : m = l.length := by omega
          subst hm
          rw [List.getD_append_right _ _ _ _ (le_refl _)]
          simp
        · rcases h3 with hne | hmem
          · exact Or.inl hne
          · exact Or.inr (List.mem_append_left _ hmem)

theorem HLInv_stateAfter (hold : ℕ) (l : List ExprLabel) :
    HLInv l ((HLState.init hold).stateAfter l) := by
  induction l using List.reverseRecOn with
  | nil =>
    refine ⟨by simp [HLState.stateAfter, HLState.init], ?_, Or.inl rfl⟩
    intro m hm1 hm2
    simp at hm2
  | append_singleton l a ih =>
    rw [HLState.stateAfter_append]
    exact HLInv_step l _ a ih

theorem HLStep_change (l : List ExprLabel) (st : HLState) (x : ExprLabel)
    (h : HLInv l st) (hch : ((st.step x).1).current ≠ st.current) :
    st.hold ≤ l.length + 1 ∧
    ∀ m, l.length + 1 ≤ m + st.hold → m < l.length + 1 →
      (l ++ [x]).getD m .neutral = ((st.step x).1).current := by
  obtain ⟨h1, h2, _⟩ := h
  by_cases hc : x = st.current
  · exfalso
    apply hch
    rw [step_eq_current st x hc]
  · by_cases hc2 : x = st.candidate
    · by_cases hf : st.hold ≤ st.hits + 1
      · rw [step_fst_fire_adv st x hc hc2 hf]
        refine ⟨by omega, ?_⟩
        intro m hm1 hm2
        show (l ++ [x]).getD m ExprLabel.neutral = st.candidate
        by_cases hm : m = l.length
        · subst hm
          rw [List.getD_append_right _ _ _ _ (le_refl _)]
          simpa using hc2
        · have hmlt : m < l.length := by omega
          rw [List.getD_append _ _ _ _ hmlt]
          exact h2 m (by omega) hmlt
      · exfalso
        apply hch
        rw [step_fst_adv st x hc hc2 hf]
    · by_cases hf : st.hold ≤ 1
      · rw [step_fst_fire_new st x hc hc2 hf]
        refine ⟨by omega, ?_⟩
        intro m hm1 hm2
        show (l ++ [x]).getD m ExprLabel.neutral = x
        have hm : m = l.length := by omega
        subst hm
        rw [List.getD_append_right _ _ _ _ (le_refl _)]
        simp
      · exfalso
        apply hch
        rw [step_fst_newcand st x hc hc2 hf]

/-- C10. Feeding any label sequence to a fresh HysteresisLabeler, the
returned stable label changes at call j only when the same new label was
passed for the last holdFrames consecutive calls (so at least holdFrames
calls have happened, and a deviating run shorter than holdFrames never
changes the output), and every returned label is the initial neutral or some
label previously passed to step. -/
theorem C10_hysteresis (hold : ℕ) (ins : List ExprLabel) (j : ℕ)
    (hj : j < ins.length) :
    ((((HLState.init hold).runList ins).getD j .neutral ≠
        (if j = 0 then ExprLabel.neutral
         else ((HLState.init hold).runList ins).getD (j - 1) .neutral)) →
      (hold ≤ j + 1 ∧
       ∀ m, m ≤ j → j < m + hold →
         ins.getD m .neutral = ((HLState.init hold).runList ins).getD j .neutral)) ∧
    (((HLState.init hold).runList ins).getD j .neutral = .neutral ∨
     ((HLState.init hold).runList ins).getD j .neutral ∈ ins.take (j + 1)) := by
  have htk : ins.take (j + 1) = ins.take j ++ [ins.getD j .neutral] :=
    take_succ_getD ins j .neutral hj
  have hout : ((HLState.init hold).runList ins).getD j .neutral =
      (((HLState.init hold).stateAfter (ins.take j)).step
        (ins.getD j .neutral)).1.current := by
    rw [HLState.runList_getD _ _ j hj, htk, HLState.stateAfter_append]
  set A := (HLState.init hold).stateAfter (ins.take j) with hA
  have hinv : HLInv (ins.take j) A := HLInv_stateAfter hold (ins.take j)
  have hAhold : A.hold = hold :=
    HLState.stateAfter_hold (HLState.init hold) (ins.take j)
  have hlen : (ins.take j).length = j := by
    rw [List.length_take]
    omega
  have hprev : (if j = 0 then ExprLabel.neutral
      else ((HLState.init hold).runList ins).getD (j - 1) .neutral)
      = A.current := by
    by_cases h0 : j = 0
    · subst h0
      simp [hA, HLState.stateAfter, HLState.init]
    · rw [if_neg h0]
      have hj1 : j - 1 < ins.length := by omega
      rw [HLState.runList_getD _ _ _ hj1]
      have he : j - 1 + 1 = j := by omega
      rw [he]
  constructor
  · intro hch
    rw [hout, hprev] at hch
    have hchg := HLStep_change (ins.take j) A (ins.getD j .neutral) hinv hch
    constructor
    · have hb := hchg.1
      rw [hlen, hAhold] at hb
      exact hb
    · intro m hm1 hm2
      have hwin := hchg.2 m (by rw [hlen, hAhold]; omega) (by rw [hlen]; omega)
      rw [← htk] at hwin
      rw [getD_take_of_lt ins m (j + 1) .neutral (by omega)] at hwin
      rw [hout]
      exact hwin
  · have hinv2 := HLInv_stateAfter hold (ins.take (j + 1))
    have hout2 : ((HLState.init hold).runList ins).getD j .neutral =
        ((HLState.init hold).stateAfter (ins.take (j + 1))).current :=
      HLState.runList_getD _ _ j hj
    rw [hout2]
    exact hinv2.2.2

/-- Witness for C10: with holdFrames 2 and inputs positive, positive, angry,
the output changes at call index 1 (neutral to positive) after two
consecutive positive inputs, and the returned label is among the inputs. -/
theorem C10_witness :
    (2 ≤ 1 + 1 ∧
     ∀ m, m ≤ 1 → 1 < m + 2 →
       ([ExprLabel.positive, ExprLabel.positive, ExprLabel.angry].getD m .neutral =
         ((HLState.init 2).runList
           [ExprLabel.positive, ExprLabel.positive, ExprLabel.angry]).getD 1
           .neutral)) ∧
    (((HLState.init 2).runList
        [ExprLabel.positive, ExprLabel.positive, ExprLabel.angry]).getD 1
        .neutral = .neutral ∨
     ((HLState.init 2).runList
        [ExprLabel.positive, ExprLabel.positive, ExprLabel.angry]).getD 1
        .neutral ∈
       [ExprLabel.positive, ExprLabel.positive, ExprLabel.angry].take (1 + 1)) :=
  ⟨(C10_hysteresis 2 [ExprLabel.positive, ExprLabel.positive, ExprLabel.angry]
      1 (by decide)).1 (by decide),
   (C10_hysteresis 2 [ExprLabel.positive, ExprLabel.positive, ExprLabel.angry]
      1 (by decide)).2⟩

end VoiceGate
